import Mathlib

/-!
Verification of the real-time room relay of the zentra_chat backend
(`backend/consumers.py`, routed by `backend/asgi.py`).

The embedding models the `ChatConsumer` WebSocket consumer together with the
in-process group layer it talks to.  Each live consumer instance is keyed by
its unique channel name (a `Nat` here); its instance attributes
(`room_name`, lifecycle state, and the sequence of frames it has written to
its WebSocket) form a `Conn` record.  The channel layer's group membership is
a list of (group name, channel name) pairs with set semantics.

JSON values are modelled by an inductive `Json`; an inbound frame is either
well-formed JSON (already parsed) or malformed text, so that `json.loads`
becomes a total Lean function on that representation.
-/

/-- JSON values, as produced by `json.loads`.  Objects are association lists
(the parser collapses duplicate keys, so lists stand for dicts). -/
inductive Json where
  | null : Json
  | bool (b : Bool) : Json
  | num (n : Int) : Json
  | str (s : String) : Json
  | arr (xs : List Json) : Json
  | obj (kvs : List (String × Json)) : Json

/-- Lifecycle state of a consumer's WebSocket connection. -/
inductive ConnState where
  | connecting : ConnState
  | opened : ConnState
  | closed : ConnState
deriving DecidableEq

/-- Channel names: the unique per-connection handle (`self.channel_name`). -/
abbrev ChanName := Nat

/-- One consumer instance: its `room_name` attribute, lifecycle state, and
the frames it has sent to its client (via `self.send`), oldest first. -/
structure Conn where
  room : String
  state : ConnState
  outbox : List Json

/-- Global state: all consumer instances keyed by channel name, plus the
channel layer's group membership pairs (group name, channel name). -/
structure SysState where
  conns : List (ChanName × Conn)
  groups : List (String × ChanName)

/-- The empty initial state: no consumers, no group members. -/
def initState : SysState := { conns := [], groups := [] }

/-- Group name for a room, exactly as built in `ChatConsumer.connect`:
the string chat_ followed by the room name. -/
def roomGroupName (r : String) : String := "chat_" ++ r

/-- Look up the consumer record for a channel name (first match). -/
def findConn : List (ChanName × Conn) → ChanName → Option Conn
  | [], _ => none
  | (k, c) :: rest, ch => if k = ch then some c else findConn rest ch

/-- Apply a function to the record(s) stored under a channel name. -/
def updateConn : List (ChanName × Conn) → ChanName → (Conn → Conn) → List (ChanName × Conn)
  | [], _, _ => []
  | (k, c) :: rest, ch, f =>
      (if k = ch then (k, f c) else (k, c)) :: updateConn rest ch f

/-- Modelled from the spec: the channel layer's `group_add` (the Broadcast
Channel / Room Registry join primitive, provided by the external layer
library).  Set semantics: adding an already-present member changes nothing. -/
def groupAdd (g : String) (ch : ChanName) (gs : List (String × ChanName)) :
    List (String × ChanName) :=
  if (g, ch) ∈ gs then gs else gs ++ [(g, ch)]

/-- Modelled from the spec: the channel layer's `group_discard` (the `leave`
primitive).  Removes the pair if present; a no-op otherwise. -/
def groupDiscard (g : String) (ch : ChanName) (gs : List (String × ChanName)) :
    List (String × ChanName) :=
  gs.filter (fun p => decide (p ≠ (g, ch)))

/-- The outbound wire frame built in `ChatConsumer.chat_message`:
`json.dumps` of a one-field object carrying the message value. -/
def wsOut (m : Json) : Json := Json.obj [("message", m)]

/-- Deliver a group event to every consumer whose channel is in the group:
each member's `chat_message` handler runs and appends the outbound frame. -/
def deliverAll (g : String) (m : Json) (gs : List (String × ChanName)) :
    List (ChanName × Conn) → List (ChanName × Conn)
  | [] => []
  | (ch, c) :: rest =>
      (if (g, ch) ∈ gs then (ch, { c with outbox := c.outbox ++ [wsOut m] })
       else (ch, c)) :: deliverAll g m gs rest

/-- Modelled from the spec: the channel layer's `group_send` — fan the event
out to every channel currently in the group, exactly once each. -/
def groupSend (g : String) (m : Json) (s : SysState) : SysState :=
  { s with conns := deliverAll g m s.groups s.conns }

/-- Errors the Python code can raise in `receive`.  A missing key on a dict
raises KeyError; subscripting a non-dict parse result raises TypeError. -/
inductive PyErr where
  | jsonDecodeError : PyErr
  | keyError : PyErr
  | typeError : PyErr
  | attributeError : PyErr
deriving DecidableEq

/-- A raw inbound frame: either text that is not well-formed JSON, or a
well-formed frame given by its parse result. -/
inductive Raw where
  | malformed (t : String) : Raw
  | wf (j : Json) : Raw

/-- The behaviour of `json.loads` on a raw frame. -/
def loads : Raw → Except PyErr Json
  | Raw.malformed _ => Except.error PyErr.jsonDecodeError
  | Raw.wf j => Except.ok j

/-- Association-list field lookup inside a JSON object. -/
def lookupField : List (String × Json) → String → Option Json
  | [], _ => none
  | (k, v) :: rest, key => if k = key then some v else lookupField rest key

/-- The subscript `text_data_json["message"]` from `ChatConsumer.receive`. -/
def getMessage : Json → Except PyErr Json
  | Json.obj kvs =>
      match lookupField kvs "message" with
      | some v => Except.ok v
      | none => Except.error PyErr.keyError
  | _ => Except.error PyErr.typeError

/-- The body of `ChatConsumer.receive`: parse the frame, extract the message field, and
`group_send` a chat_message event to the sender's room group.  Errors are
the uncaught Python exceptions of the corresponding lines. -/
def receiveStep (ch : ChanName) (raw : Raw) (s : SysState) : Except PyErr SysState :=
  match loads raw with
  | Except.error e => Except.error e
  | Except.ok j =>
      match getMessage j with
      | Except.error e => Except.error e
      | Except.ok m =>
          match findConn s.conns ch with
          | none => Except.error PyErr.attributeError
          | some c => Except.ok (groupSend (roomGroupName c.room) m s)

/-- First half of `ChatConsumer.connect`: set `self.room_name` /
`self.room_group_name` and `group_add` the channel to the room group.
A fresh channel gets a new record in the Connecting state. -/
def connectJoin (ch : ChanName) (r : String) (s : SysState) : SysState :=
  { conns :=
      match findConn s.conns ch with
      | some _ => updateConn s.conns ch (fun c => { c with room := r })
      | none => s.conns ++ [(ch, { room := r, state := ConnState.connecting, outbox := [] })]
    groups := groupAdd (roomGroupName r) ch s.groups }

/-- Second half of `ChatConsumer.connect`: `self.accept()` completes the
handshake, moving the connection to the Open state. -/
def acceptCall (ch : ChanName) (s : SysState) : SysState :=
  { s with conns := updateConn s.conns ch (fun c => { c with state := ConnState.opened }) }

/-- The whole `ChatConsumer.connect` body: join the group, then accept. -/
def connectCall (ch : ChanName) (r : String) (s : SysState) : SysState :=
  acceptCall ch (connectJoin ch r s)

/-- The body of `ChatConsumer.disconnect`: `group_discard` the channel from its room
group (the method touches nothing else). -/
def disconnectCall (ch : ChanName) (s : SysState) : SysState :=
  match findConn s.conns ch with
  | none => s
  | some c => { s with groups := groupDiscard (roomGroupName c.room) ch s.groups }

/-- Mark a connection Closed (the transport side of a disconnect). -/
def setClosed (ch : ChanName) (s : SysState) : SysState :=
  { s with conns := updateConn s.conns ch (fun c => { c with state := ConnState.closed }) }

/-- Events a trace of the relay may contain.  `join` and `acc` are the two
halves of `connect` (other tasks may run between them); `recv` is an inbound
frame; `disc` is the close of a connection, which the framework follows with
`ChatConsumer.disconnect`. -/
inductive Ev where
  | join (ch : ChanName) (r : String) : Ev
  | acc (ch : ChanName) : Ev
  | recv (ch : ChanName) (raw : Raw) : Ev
  | disc (ch : ChanName) : Ev

/-- One trace step.  Framework preconditions (a consumer is created fresh
per socket, `connect`/`receive`/`disconnect` fire only in the right
lifecycle states) make the event a no-op when unmet.  An exception escaping
`receive` leaves the registry and every outbox unchanged. -/
def step (s : SysState) (e : Ev) : SysState :=
  match e with
  | Ev.join ch r =>
      match findConn s.conns ch with
      | none => connectJoin ch r s
      | some _ => s
  | Ev.acc ch =>
      match findConn s.conns ch with
      | some c => if c.state = ConnState.connecting then acceptCall ch s else s
      | none => s
  | Ev.recv ch raw =>
      match findConn s.conns ch with
      | some c =>
          if c.state = ConnState.opened then
            match receiveStep ch raw s with
            | Except.ok s' => s'
            | Except.error _ => s
          else s
      | none => s
  | Ev.disc ch =>
      match findConn s.conns ch with
      | some c =>
          if c.state = ConnState.closed then s
          else setClosed ch (disconnectCall ch s)
      | none => s

/-- Run a trace from a given state. -/
def runFrom (s : SysState) (evs : List Ev) : SysState := evs.foldl step s

/-- Run a trace from the empty initial state. -/
def run (evs : List Ev) : SysState := runFrom initState evs

/-- The frames a channel's client has received, oldest first. -/
def outboxOf (s : SysState) (ch : ChanName) : List Json :=
  match findConn s.conns ch with
  | some c => c.outbox
  | none => []

/-- Membership of a channel in a group, as the channel layer sees it. -/
def memberOf (s : SysState) (g : String) (ch : ChanName) : Prop :=
  (g, ch) ∈ s.groups

instance (s : SysState) (g : String) (ch : ChanName) : Decidable (memberOf s g ch) :=
  inferInstanceAs (Decidable ((g, ch) ∈ s.groups))

/-- Registry invariant, maintained by every reachable state: consumer keys
are unique; group membership has no duplicates; each group entry points at a
live (non-Closed) consumer whose room names that very group; and each live
consumer is in its room's group. -/
def RegistryInv (s : SysState) : Prop :=
  (s.conns.map Prod.fst).Nodup ∧
  s.groups.Nodup ∧
  (∀ g ch, (g, ch) ∈ s.groups → ∃ c, findConn s.conns ch = some c ∧
    g = roomGroupName c.room ∧ c.state ≠ ConnState.closed) ∧
  (∀ ch c, findConn s.conns ch = some c → c.state ≠ ConnState.closed →
    (roomGroupName c.room, ch) ∈ s.groups)

/-- Strip a literal prefix from a character list, returning the rest. -/
def stripPre : List Char → List Char → Option (List Char)
  | [], rest => some rest
  | _ :: _, [] => none
  | p :: ps, c :: cs => if p = c then stripPre ps cs else none

/-- The Django `str` path converter: one or more characters, none a slash. -/
def strOk (cs : List Char) : Bool := !cs.isEmpty && !cs.contains '/'

/-- The WebSocket route of `asgi.py`: the pattern ws/chat/<str:room_name>/.
Returns the captured room name when the path matches, and nothing (the
request gets no consumer at all) otherwise. -/
def roomOf (path : String) : Option String :=
  match stripPre "ws/chat/".data path.data with
  | none => none
  | some rest =>
      match rest.getLast? with
      | some lc =>
          if lc = '/' then
            if strOk rest.dropLast then some (String.mk rest.dropLast) else none
          else none
      | none => none

/-- A WebSocket connection attempt at a URL path: only a path matching the
route reaches `ChatConsumer.connect`; otherwise the state is untouched. -/
def handleWs (ch : ChanName) (path : String) (s : SysState) : SysState :=
  match roomOf path with
  | none => s
  | some r => connectCall ch r s

/-- A concrete open connection in room lobby, used to instantiate theorems. -/
def lobbyConn : Conn := { room := "lobby", state := ConnState.opened, outbox := [] }

/-- A concrete open connection in room a. -/
def connA : Conn := { room := "a", state := ConnState.opened, outbox := [] }

/-- A concrete open connection in room b. -/
def connB : Conn := { room := "b", state := ConnState.opened, outbox := [] }

/-- A concrete state: channels 0 and 1 are the two members of room lobby. -/
def lobbyState : SysState :=
  { conns := [(0, lobbyConn), (1, lobbyConn)],
    groups := [(roomGroupName "lobby", 0), (roomGroupName "lobby", 1)] }

/-- A concrete state: channel 0 is in room a, channel 1 in room b. -/
def abState : SysState :=
  { conns := [(0, connA), (1, connB)],
    groups := [(roomGroupName "a", 0), (roomGroupName "b", 1)] }

/-- A concrete state: channel 0 is the sole member of room lobby. -/
def soloState : SysState :=
  { conns := [(0, lobbyConn)], groups := [(roomGroupName "lobby", 0)] }

/-- A concrete state: channel 0 has a consumer record but its group entry
is already gone (as after a discard that raced with another). -/
def strayState : SysState :=
  { conns := [(0, lobbyConn)], groups := [] }

/-! ### Basic lemmas about the registry operations -/

theorem findConn_updateConn_same (l : List (ChanName × Conn)) (ch : ChanName)
    (f : Conn → Conn) : findConn (updateConn l ch f) ch = (findConn l ch).map f := by
  induction l with
  | nil => rfl
  | cons p rest ih =>
      obtain ⟨k, c⟩ := p
      simp only [updateConn]
      by_cases hk : k = ch
      · rw [if_pos hk]
        simp [findConn, hk]
      · rw [if_neg hk]
        simp [findConn, hk, ih]

theorem findConn_updateConn_other (l : List (ChanName × Conn)) (ch ch' : ChanName)
    (f : Conn → Conn) (hne : ch' ≠ ch) :
    findConn (updateConn l ch f) ch' = findConn l ch' := by
  induction l with
  | nil => rfl
  | cons p rest ih =>
      obtain ⟨k, c⟩ := p
      simp only [updateConn]
      by_cases hk : k = ch
      · rw [if_pos hk]
        subst hk
        simp [findConn, Ne.symm hne, ih]
      · rw [if_neg hk]
        by_cases hk' : k = ch'
        · simp [findConn, hk']
        · simp [findConn, hk', ih]

theorem findConn_append (l₁ l₂ : List (ChanName × Conn)) (ch : ChanName) :
    findConn (l₁ ++ l₂) ch =
      match findConn l₁ ch with
      | some c => some c
      | none => findConn l₂ ch := by
  induction l₁ with
  | nil => rfl
  | cons p rest ih =>
      obtain ⟨k, c⟩ := p
      by_cases hk : k = ch
      · simp [findConn, hk]
      · simp [findConn, hk, ih]

theorem findConn_deliverAll (g : String) (m : Json) (gs : List (String × ChanName))
    (l : List (ChanName × Conn)) (ch : ChanName) :
    findConn (deliverAll g m gs l) ch =
      (findConn l ch).map
        (fun c => if (g, ch) ∈ gs then { c with outbox := c.outbox ++ [wsOut m] } else c) := by
  induction l with
  | nil => rfl
  | cons p rest ih =>
      obtain ⟨k, c⟩ := p
      simp only [deliverAll]
      by_cases hg : (g, k) ∈ gs
      · rw [if_pos hg]
        by_cases hk : k = ch
        · subst hk
          simp [findConn, hg]
        · simp [findConn, hk, ih]
      · rw [if_neg hg]
        by_cases hk : k = ch
        · subst hk
          simp [findConn, hg]
        · simp [findConn, hk, ih]

theorem mem_groupAdd (x : String × ChanName) (g : String) (ch : ChanName)
    (gs : List (String × ChanName)) :
    x ∈ groupAdd g ch gs ↔ x ∈ gs ∨ x = (g, ch) := by
  unfold groupAdd
  by_cases h : (g, ch) ∈ gs
  · simp only [if_pos h]
    constructor
    · exact Or.inl
    · rintro (hx | rfl)
      · exact hx
      · exact h
  · simp [if_neg h]

theorem nodup_groupAdd (g : String) (ch : ChanName) (gs : List (String × ChanName))
    (h : gs.Nodup) : (groupAdd g ch gs).Nodup := by
  unfold groupAdd
  by_cases hm : (g, ch) ∈ gs
  · simpa [hm]
  · rw [if_neg hm]
    refine List.nodup_append.mpr ⟨h, List.nodup_singleton _, ?_⟩
    intro a ha hb
    rw [List.mem_singleton] at hb
    subst hb
    exact hm ha

theorem mem_groupDiscard (x : String × ChanName) (g : String) (ch : ChanName)
    (gs : List (String × ChanName)) :
    x ∈ groupDiscard g ch gs ↔ x ∈ gs ∧ x ≠ (g, ch) := by
  simp [groupDiscard, List.mem_filter]

theorem nodup_groupDiscard (g : String) (ch : ChanName) (gs : List (String × ChanName))
    (h : gs.Nodup) : (groupDiscard g ch gs).Nodup :=
  h.filter _

theorem groupDiscard_idem (g : String) (ch : ChanName) (gs : List (String × ChanName)) :
    groupDiscard g ch (groupDiscard g ch gs) = groupDiscard g ch gs := by
  unfold groupDiscard
  rw [List.filter_filter]
  congr 1
  funext a
  exact Bool.and_self _

theorem groupDiscard_eq_self (g : String) (ch : ChanName)
    (gs : List (String × ChanName)) (h : (g, ch) ∉ gs) :
    groupDiscard g ch gs = gs := by
  apply List.filter_eq_self.mpr
  intro a ha
  simp only [decide_eq_true_eq]
  intro hx
  exact h (hx ▸ ha)

theorem roomGroupName_inj (a b : String) (h : roomGroupName a = roomGroupName b) :
    a = b := by
  have h2 := congrArg String.data h
  simp [roomGroupName, String.data_append] at h2
  exact String.ext h2

/-! ### Characterising the operations -/

theorem conns_groupSend (g : String) (m : Json) (s : SysState) :
    (groupSend g m s).conns = deliverAll g m s.groups s.conns := rfl

theorem groups_groupSend (g : String) (m : Json) (s : SysState) :
    (groupSend g m s).groups = s.groups := rfl

theorem outboxOf_groupSend_mem (g : String) (m : Json) (s : SysState) (ch : ChanName)
    (c : Conn) (hc : findConn s.conns ch = some c) (hm : (g, ch) ∈ s.groups) :
    outboxOf (groupSend g m s) ch = outboxOf s ch ++ [wsOut m] := by
  unfold outboxOf
  rw [conns_groupSend, findConn_deliverAll, hc]
  simp [hm]

theorem outboxOf_groupSend_not_mem (g : String) (m : Json) (s : SysState) (ch : ChanName)
    (hm : (g, ch) ∉ s.groups) :
    outboxOf (groupSend g m s) ch = outboxOf s ch := by
  unfold outboxOf
  rw [conns_groupSend, findConn_deliverAll]
  cases hc : findConn s.conns ch with
  | none => rfl
  | some c => simp [hm]

theorem outboxOf_groupSend_no_conn (g : String) (m : Json) (s : SysState) (ch : ChanName)
    (hc : findConn s.conns ch = none) :
    outboxOf (groupSend g m s) ch = outboxOf s ch := by
  unfold outboxOf
  rw [conns_groupSend, findConn_deliverAll, hc]
  rfl

theorem receiveStep_wf (x : ChanName) (j m : Json) (s : SysState) (xc : Conn)
    (hx : findConn s.conns x = some xc) (hm : getMessage j = Except.ok m) :
    receiveStep x (Raw.wf j) s = Except.ok (groupSend (roomGroupName xc.room) m s) := by
  simp only [receiveStep, loads, hm, hx]

theorem disconnectCall_some (ch : ChanName) (s : SysState) (c : Conn)
    (hf : findConn s.conns ch = some c) :
    disconnectCall ch s =
      { s with groups := groupDiscard (roomGroupName c.room) ch s.groups } := by
  unfold disconnectCall
  rw [hf]

theorem disconnectCall_none (ch : ChanName) (s : SysState)
    (hf : findConn s.conns ch = none) : disconnectCall ch s = s := by
  unfold disconnectCall
  rw [hf]

theorem receiveStep_wf_error (x : ChanName) (j : Json) (e : PyErr) (s : SysState)
    (hm : getMessage j = Except.error e) :
    receiveStep x (Raw.wf j) s = Except.error e := by
  simp only [receiveStep, loads, hm]

/-! ### Claim theorems -/

/-- C5: `ChatConsumer.disconnect` — the registry `leave` — is idempotent:
a second call yields the same registry state as one call; and discarding a
connection that is not present in its room's group is a no-op, not an error
(the operation is total and returns the state unchanged). -/
theorem c5_disconnect_idempotent :
    (∀ ch s, disconnectCall ch (disconnectCall ch s) = disconnectCall ch s) ∧
    (∀ ch s c, findConn s.conns ch = some c →
      (roomGroupName c.room, ch) ∉ s.groups → disconnectCall ch s = s) := by
  constructor
  · intro ch s
    cases hf : findConn s.conns ch with
    | none => rw [disconnectCall_none ch s hf, disconnectCall_none ch s hf]
    | some c =>
        have h1 := disconnectCall_some ch s c hf
        rw [h1]
        have hf2 : findConn
            ({ s with groups := groupDiscard (roomGroupName c.room) ch s.groups } :
              SysState).conns ch = some c := hf
        rw [disconnectCall_some _ _ c hf2]
        exact congrArg (fun gs => ({ s with groups := gs } : SysState))
          (groupDiscard_idem (roomGroupName c.room) ch s.groups)
  · intro ch s c hf hm
    rw [disconnectCall_some ch s c hf, groupDiscard_eq_self _ _ _ hm]

/-- Witness for C5: concrete double discard, and a discard of a connection
whose group entry is already gone. -/
theorem c5_disconnect_idempotent_witness :
    disconnectCall 0 (disconnectCall 0 soloState) = disconnectCall 0 soloState ∧
    disconnectCall 0 strayState = strayState :=
  ⟨c5_disconnect_idempotent.1 0 soloState,
   c5_disconnect_idempotent.2 0 strayState lobbyConn rfl (List.not_mem_nil _)⟩

/-- C7 amended: the code has no AlreadyJoinedError — `connect` on a
connection already registered in room a silently adds it to room b's group
as well, keeping the old membership, so a connection can be in two rooms'
groups at once. -/
theorem c7_second_join_double_registers (s : SysState) (ch : ChanName) (a b : String)
    (ha : (roomGroupName a, ch) ∈ s.groups) :
    (roomGroupName a, ch) ∈ (connectCall ch b s).groups ∧
    (roomGroupName b, ch) ∈ (connectCall ch b s).groups := by
  have hg : (connectCall ch b s).groups = groupAdd (roomGroupName b) ch s.groups := rfl
  rw [hg]
  exact ⟨(mem_groupAdd _ _ _ _).mpr (Or.inl ha),
         (mem_groupAdd _ _ _ _).mpr (Or.inr rfl)⟩

/-- Witness for the amended C7 at a concrete double join. -/
theorem c7_second_join_double_registers_witness :
    (roomGroupName "a", 0) ∈ (connectCall 0 "b" (connectCall 0 "a" initState)).groups ∧
    (roomGroupName "b", 0) ∈ (connectCall 0 "b" (connectCall 0 "a" initState)).groups :=
  c7_second_join_double_registers (connectCall 0 "a" initState) 0 "a" "b" (by decide)

/-- C7 counterexample: a second `connect` call for a connection already in
room a raises nothing and leaves the connection a member of both chat_a and
chat_b — there is no AlreadyJoinedError in the code. -/
theorem c7_counterexample :
    memberOf (connectCall 0 "b" (connectCall 0 "a" initState)) (roomGroupName "a") 0 ∧
    memberOf (connectCall 0 "b" (connectCall 0 "a" initState)) (roomGroupName "b") 0 := by
  decide

/-- C3: the room-to-group mapping (prefixing chat_) is injective, and a
message sent by a connection in room a is never delivered to a connection
whose group memberships are all in room b's group, when a and b differ. -/
theorem c3_distinct_rooms_isolated :
    (∀ a b : String, roomGroupName a = roomGroupName b → a = b) ∧
    (∀ (s : SysState) (x y : ChanName) (a b : String) (xc : Conn) (j : Json)
      (s' : SysState), a ≠ b →
      findConn s.conns x = some xc → xc.room = a →
      (∀ p ∈ s.groups, p.2 = y → p.1 = roomGroupName b) →
      receiveStep x (Raw.wf j) s = Except.ok s' →
      outboxOf s' y = outboxOf s y) := by
  constructor
  · exact roomGroupName_inj
  · intro s x y a b xc j s' hab hx hxr hy hrecv
    cases hm : getMessage j with
    | error e =>
        rw [receiveStep_wf_error x j e s hm] at hrecv
        exact (Except.noConfusion hrecv)
    | ok m =>
        rw [receiveStep_wf x j m s xc hx hm] at hrecv
        injection hrecv with h4
        subst h4
        apply outboxOf_groupSend_not_mem
        intro hmem
        have hgb := hy _ hmem rfl
        rw [hxr] at hgb
        exact hab (roomGroupName_inj _ _ hgb)

/-- Witness for C3: in the concrete two-room state, a publish by the room-a
member leaves the room-b member's outbox unchanged. -/
theorem c3_distinct_rooms_isolated_witness :
    outboxOf (groupSend (roomGroupName "a") (Json.str "hello") abState) 1
      = outboxOf abState 1 :=
  c3_distinct_rooms_isolated.2 abState 0 1 "a" "b" connA
    (Json.obj [("message", Json.str "hello")])
    (groupSend (roomGroupName "a") (Json.str "hello") abState)
    (by decide) rfl rfl (by decide)
    (receiveStep_wf 0 _ _ abState connA rfl rfl)

/-- C1: when the members of room R's group are exactly the connections c1
and c2, a well-formed publish through `receive` by a member x of the room
delivers the envelope exactly once to c1 and exactly once to c2 (the sender
included, when it is one of them), and to no other connection. -/
theorem c1_exact_delivery (s : SysState) (room : String) (c1 c2 x : ChanName)
    (xc : Conn) (j m : Json)
    (hmem : ∀ ch, (roomGroupName room, ch) ∈ s.groups ↔ ch = c1 ∨ ch = c2)
    (hx : findConn s.conns x = some xc) (hxr : xc.room = room)
    (_hxm : (roomGroupName room, x) ∈ s.groups)
    (d1 : Conn) (hc1 : findConn s.conns c1 = some d1)
    (d2 : Conn) (hc2 : findConn s.conns c2 = some d2)
    (hmsg : getMessage j = Except.ok m) :
    ∃ s', receiveStep x (Raw.wf j) s = Except.ok s' ∧
      outboxOf s' c1 = outboxOf s c1 ++ [wsOut m] ∧
      outboxOf s' c2 = outboxOf s c2 ++ [wsOut m] ∧
      ∀ ch, ch ≠ c1 → ch ≠ c2 → outboxOf s' ch = outboxOf s ch := by
  refine ⟨groupSend (roomGroupName room) m s, ?_, ?_, ?_, ?_⟩
  · rw [receiveStep_wf x j m s xc hx hmsg, hxr]
  · exact outboxOf_groupSend_mem _ _ _ _ d1 hc1 ((hmem c1).mpr (Or.inl rfl))
  · exact outboxOf_groupSend_mem _ _ _ _ d2 hc2 ((hmem c2).mpr (Or.inr rfl))
  · intro ch h1 h2
    apply outboxOf_groupSend_not_mem
    intro hm2
    rcases (hmem ch).mp hm2 with h | h
    · exact h1 h
    · exact h2 h

/-- Witness for C1: the lobby with members 0 and 1; member 0 publishes hi
and both outboxes (the sender's own included) grow by exactly that frame. -/
theorem c1_exact_delivery_witness :
    outboxOf (groupSend (roomGroupName "lobby") (Json.str "hi") lobbyState) 0
        = outboxOf lobbyState 0 ++ [wsOut (Json.str "hi")] ∧
    outboxOf (groupSend (roomGroupName "lobby") (Json.str "hi") lobbyState) 1
        = outboxOf lobbyState 1 ++ [wsOut (Json.str "hi")] := by
  obtain ⟨s', hok, h1, h2, h3⟩ := c1_exact_delivery lobbyState "lobby" 0 1 0 lobbyConn
    (Json.obj [("message", Json.str "hi")]) (Json.str "hi")
    (by intro ch; simp [lobbyState]) rfl rfl (by simp [lobbyState])
    lobbyConn rfl lobbyConn rfl rfl
  have heq := receiveStep_wf 0 (Json.obj [("message", Json.str "hi")]) (Json.str "hi")
    lobbyState lobbyConn rfl rfl
  rw [heq] at hok
  injection hok with h4
  subst h4
  exact ⟨h1, h2⟩

/-- C2 amended: a frame that is not well-formed JSON raises JSONDecodeError
and one lacking the message field raises KeyError, both uncaught by
`receive`; no envelope is published and no error notification reaches the
sender — the failing step changes no registry entry and no outbox. -/
theorem c2_malformed_uncaught_no_publish :
    (∀ ch s t, receiveStep ch (Raw.malformed t) s = Except.error PyErr.jsonDecodeError) ∧
    (∀ ch s kvs, lookupField kvs "message" = none →
      receiveStep ch (Raw.wf (Json.obj kvs)) s = Except.error PyErr.keyError) ∧
    (∀ ch s raw e, receiveStep ch raw s = Except.error e →
      step s (Ev.recv ch raw) = s) := by
  refine ⟨fun ch s t => rfl, ?_, ?_⟩
  · intro ch s kvs hkvs
    have hget : getMessage (Json.obj kvs) = Except.error PyErr.keyError := by
      simp [getMessage, hkvs]
    exact receiveStep_wf_error ch (Json.obj kvs) PyErr.keyError s hget
  · intro ch s raw e herr
    simp only [step]
    cases hf : findConn s.conns ch with
    | none => rfl
    | some c =>
        dsimp only
        by_cases hst : c.state = ConnState.opened
        · rw [if_pos hst, herr]
        · rw [if_neg hst]

/-- Witness for the amended C2 at concrete malformed frames. -/
theorem c2_malformed_uncaught_no_publish_witness :
    receiveStep 0 (Raw.malformed "not json") soloState
        = Except.error PyErr.jsonDecodeError ∧
    receiveStep 0 (Raw.wf (Json.obj [])) soloState = Except.error PyErr.keyError ∧
    step soloState (Ev.recv 0 (Raw.malformed "not json")) = soloState :=
  ⟨c2_malformed_uncaught_no_publish.1 0 soloState "not json",
   c2_malformed_uncaught_no_publish.2.1 0 soloState [] rfl,
   c2_malformed_uncaught_no_publish.2.2 0 soloState (Raw.malformed "not json")
     PyErr.jsonDecodeError
     (c2_malformed_uncaught_no_publish.1 0 soloState "not json")⟩

/-- C2 counterexample: at the concrete open lobby connection, a malformed
frame raises JSONDecodeError (there is no MalformedPayloadError and no
handler), and the sender's outbox stays empty — the sender is not notified
of any error, contrary to the claim. -/
theorem c2_counterexample :
    receiveStep 0 (Raw.malformed "not json") soloState
        = Except.error PyErr.jsonDecodeError ∧
    step soloState (Ev.recv 0 (Raw.malformed "not json")) = soloState ∧
    outboxOf (step soloState (Ev.recv 0 (Raw.malformed "not json"))) 0 = [] :=
  ⟨rfl, rfl, rfl⟩

/-- C9: for a well-formed inbound frame whose message field is the string v,
`receive` succeeds; every member of the sender's room group receives exactly
one outbound frame which is exactly the one-field object message : v; and
any two inbound frames with the same message value produce identical
results — all other fields are ignored. -/
theorem c9_wire_format (s : SysState) (x ch : ChanName) (xc c : Conn)
    (kvs : List (String × Json)) (v : String)
    (hx : findConn s.conns x = some xc)
    (hmsg : lookupField kvs "message" = some (Json.str v)) :
    ∃ s', receiveStep x (Raw.wf (Json.obj kvs)) s = Except.ok s' ∧
      (findConn s.conns ch = some c → (roomGroupName xc.room, ch) ∈ s.groups →
        outboxOf s' ch = outboxOf s ch ++ [Json.obj [("message", Json.str v)]]) ∧
      (∀ kvs₂, lookupField kvs₂ "message" = some (Json.str v) →
        receiveStep x (Raw.wf (Json.obj kvs₂)) s
          = receiveStep x (Raw.wf (Json.obj kvs)) s) := by
  have hget : getMessage (Json.obj kvs) = Except.ok (Json.str v) := by
    simp [getMessage, hmsg]
  refine ⟨groupSend (roomGroupName xc.room) (Json.str v) s,
    receiveStep_wf x _ _ s xc hx hget, ?_, ?_⟩
  · intro hc hm
    exact outboxOf_groupSend_mem _ _ _ _ c hc hm
  · intro kvs₂ hmsg₂
    have hget₂ : getMessage (Json.obj kvs₂) = Except.ok (Json.str v) := by
      simp [getMessage, hmsg₂]
    rw [receiveStep_wf x _ _ s xc hx hget₂, receiveStep_wf x _ _ s xc hx hget]

/-- Witness for C9: an extra field changes nothing, and the delivered frame
is exactly the one-field message object. -/
theorem c9_wire_format_witness :
    receiveStep 0 (Raw.wf (Json.obj [("message", Json.str "hi"), ("extra", Json.num 1)]))
        lobbyState
      = receiveStep 0 (Raw.wf (Json.obj [("message", Json.str "hi")])) lobbyState ∧
    outboxOf (groupSend (roomGroupName "lobby") (Json.str "hi") lobbyState) 1
      = outboxOf lobbyState 1 ++ [Json.obj [("message", Json.str "hi")]] := by
  obtain ⟨s', hok, hdeliv, hignore⟩ := c9_wire_format lobbyState 0 1 lobbyConn lobbyConn
    [("message", Json.str "hi")] "hi" rfl rfl
  refine ⟨hignore [("message", Json.str "hi"), ("extra", Json.num 1)] rfl, ?_⟩
  have heq := receiveStep_wf 0 (Json.obj [("message", Json.str "hi")]) (Json.str "hi")
    lobbyState lobbyConn rfl rfl
  rw [heq] at hok
  injection hok with h4
  subst h4
  exact hdeliv rfl (by decide)

/-! ### The registry invariant along traces -/

theorem map_fst_updateConn (l : List (ChanName × Conn)) (ch : ChanName)
    (f : Conn → Conn) : (updateConn l ch f).map Prod.fst = l.map Prod.fst := by
  induction l with
  | nil => rfl
  | cons p rest ih =>
      obtain ⟨k, c⟩ := p
      simp only [updateConn]
      by_cases hk : k = ch
      · rw [if_pos hk]; simp [ih]
      · rw [if_neg hk]; simp [ih]

theorem map_fst_deliverAll (g : String) (m : Json) (gs : List (String × ChanName))
    (l : List (ChanName × Conn)) :
    (deliverAll g m gs l).map Prod.fst = l.map Prod.fst := by
  induction l with
  | nil => rfl
  | cons p rest ih =>
      obtain ⟨k, c⟩ := p
      simp only [deliverAll]
      by_cases hg : (g, k) ∈ gs
      · rw [if_pos hg]; simp [ih]
      · rw [if_neg hg]; simp [ih]

theorem findConn_none_not_mem (l : List (ChanName × Conn)) (ch : ChanName)
    (hf : findConn l ch = none) : ch ∉ l.map Prod.fst := by
  induction l with
  | nil => simp
  | cons p rest ih =>
      obtain ⟨k, c⟩ := p
      simp only [findConn] at hf
      by_cases hk : k = ch
      · rw [if_pos hk] at hf; exact absurd hf (by simp)
      · rw [if_neg hk] at hf
        simp only [List.map_cons, List.mem_cons]
        rintro (h | h)
        · exact hk h.symm
        · exact ih hf h

theorem findConn_deliverAll_some (g : String) (m : Json)
    (gs : List (String × ChanName)) (l : List (ChanName × Conn)) (ch : ChanName)
    (c : Conn) (hc : findConn (deliverAll g m gs l) ch = some c) :
    ∃ c0, findConn l ch = some c0 ∧ c.room = c0.room ∧ c.state = c0.state := by
  rw [findConn_deliverAll] at hc
  cases hcc : findConn l ch with
  | none => rw [hcc] at hc; exact absurd hc (by simp)
  | some c0 =>
      rw [hcc] at hc
      simp only [Option.map_some', Option.some.injEq] at hc
      refine ⟨c0, rfl, ?_, ?_⟩ <;>
        · rw [← hc]
          by_cases hgg : (g, ch) ∈ gs <;> simp [hgg]

theorem registryInv_groupSend (g : String) (m : Json) (s : SysState)
    (hinv : RegistryInv s) : RegistryInv (groupSend g m s) := by
  obtain ⟨hkeys, hgroups, hsound, hcomp⟩ := hinv
  refine ⟨?_, hgroups, ?_, ?_⟩
  · rw [conns_groupSend, map_fst_deliverAll]; exact hkeys
  · intro g' ch hm
    obtain ⟨c, hc, hg', hst⟩ := hsound g' ch hm
    refine ⟨if (g, ch) ∈ s.groups then { c with outbox := c.outbox ++ [wsOut m] }
      else c, ?_, ?_, ?_⟩
    · rw [conns_groupSend, findConn_deliverAll, hc]; rfl
    · by_cases hgg : (g, ch) ∈ s.groups <;> simp [hgg, hg']
    · by_cases hgg : (g, ch) ∈ s.groups <;> simp [hgg, hst]
  · intro ch c hc hst
    obtain ⟨c0, hc0, hroom, hstate⟩ :=
      findConn_deliverAll_some g m s.groups s.conns ch c hc
    have h3 := hcomp ch c0 hc0 (by rw [← hstate]; exact hst)
    rw [hroom]
    exact h3

theorem findConn_append_some (l₁ l₂ : List (ChanName × Conn)) (ch : ChanName)
    (c : Conn) (hc : findConn l₁ ch = some c) : findConn (l₁ ++ l₂) ch = some c := by
  rw [findConn_append, hc]

theorem findConn_append_none (l₁ l₂ : List (ChanName × Conn)) (ch : ChanName)
    (hc : findConn l₁ ch = none) : findConn (l₁ ++ l₂) ch = findConn l₂ ch := by
  rw [findConn_append, hc]

theorem registryInv_connectJoin (ch : ChanName) (r : String) (s : SysState)
    (hf : findConn s.conns ch = none) (hinv : RegistryInv s) :
    RegistryInv (connectJoin ch r s) := by
  obtain ⟨hkeys, hgroups, hsound, hcomp⟩ := hinv
  have hconns : (connectJoin ch r s).conns
      = s.conns ++ [(ch, { room := r, state := ConnState.connecting, outbox := [] })] := by
    simp only [connectJoin, hf]
  have hgrps : (connectJoin ch r s).groups = groupAdd (roomGroupName r) ch s.groups := rfl
  refine ⟨?_, ?_, ?_, ?_⟩
  · rw [hconns]
    simp only [List.map_append, List.map_cons, List.map_nil]
    refine List.nodup_append.mpr ⟨hkeys, List.nodup_singleton _, ?_⟩
    intro a ha hb
    rw [List.mem_singleton] at hb
    subst hb
    exact findConn_none_not_mem _ _ hf ha
  · rw [hgrps]
    exact nodup_groupAdd _ _ _ hgroups
  · intro g ch' hm
    rw [hgrps] at hm
    rcases (mem_groupAdd _ _ _ _).mp hm with hold | hnew
    · obtain ⟨c, hc, hg, hst⟩ := hsound g ch' hold
      refine ⟨c, ?_, hg, hst⟩
      rw [hconns]
      exact findConn_append_some _ _ _ _ hc
    · have h1 : g = roomGroupName r := congrArg Prod.fst hnew
      have h2 : ch' = ch := congrArg Prod.snd hnew
      subst h1
      subst h2
      refine ⟨{ room := r, state := ConnState.connecting, outbox := [] }, ?_, rfl, ?_⟩
      · rw [hconns, findConn_append_none _ _ _ hf]
        simp [findConn]
      · intro hx
        exact ConnState.noConfusion hx
  · intro ch' c hc hst
    rw [hconns] at hc
    cases hold : findConn s.conns ch' with
    | some c1 =>
        rw [findConn_append_some _ _ _ _ hold] at hc
        injection hc with hc2
        subst hc2
        rw [hgrps]
        exact (mem_groupAdd _ _ _ _).mpr (Or.inl (hcomp ch' _ hold hst))
    | none =>
        rw [findConn_append_none _ _ _ hold] at hc
        by_cases hch : ch = ch'
        · subst hch
          have hcc : findConn
              [(ch, ({ room := r, state := ConnState.connecting, outbox := [] } : Conn))] ch
                = some { room := r, state := ConnState.connecting, outbox := [] } := by
            simp [findConn]
          rw [hcc] at hc
          injection hc with hc2
          subst hc2
          rw [hgrps]
          exact (mem_groupAdd _ _ _ _).mpr (Or.inr rfl)
        · simp [findConn, hch] at hc

theorem registryInv_acceptCall (ch : ChanName) (s : SysState) (c : Conn)
    (hf : findConn s.conns ch = some c) (hstc : c.state = ConnState.connecting)
    (hinv : RegistryInv s) : RegistryInv (acceptCall ch s) := by
  obtain ⟨hkeys, hgroups, hsound, hcomp⟩ := hinv
  refine ⟨?_, hgroups, ?_, ?_⟩
  · show ((updateConn s.conns ch _).map Prod.fst).Nodup
    rw [map_fst_updateConn]
    exact hkeys
  · intro g ch' hm
    obtain ⟨c1, hc1, hg, hst⟩ := hsound g ch' hm
    by_cases hch : ch' = ch
    · subst hch
      refine ⟨{ c1 with state := ConnState.opened }, ?_, hg, by simp⟩
      show findConn (updateConn s.conns ch' _) ch' = _
      rw [findConn_updateConn_same, hc1]
      rfl
    · refine ⟨c1, ?_, hg, hst⟩
      show findConn (updateConn s.conns ch _) ch' = _
      rw [findConn_updateConn_other _ _ _ _ hch, hc1]
  · intro ch' c1 hc1 hst
    by_cases hch : ch' = ch
    · subst hch
      rw [show (acceptCall ch' s).conns = updateConn s.conns ch'
            (fun c => { c with state := ConnState.opened }) from rfl,
          findConn_updateConn_same, hf] at hc1
      simp only [Option.map_some', Option.some.injEq] at hc1
      subst hc1
      exact hcomp ch' c hf (by rw [hstc]; decide)
    · rw [show (acceptCall ch s).conns = updateConn s.conns ch
            (fun c => { c with state := ConnState.opened }) from rfl,
          findConn_updateConn_other _ _ _ _ hch] at hc1
      exact hcomp ch' c1 hc1 hst

theorem registryInv_disc (ch : ChanName) (s : SysState) (c : Conn)
    (hf : findConn s.conns ch = some c) (hinv : RegistryInv s) :
    RegistryInv (setClosed ch (disconnectCall ch s)) := by
  obtain ⟨hkeys, hgroups, hsound, hcomp⟩ := hinv
  have hconns : (setClosed ch (disconnectCall ch s)).conns
      = updateConn s.conns ch (fun c => { c with state := ConnState.closed }) := by
    rw [disconnectCall_some ch s c hf]
    rfl
  have hgrps : (setClosed ch (disconnectCall ch s)).groups
      = groupDiscard (roomGroupName c.room) ch s.groups := by
    rw [disconnectCall_some ch s c hf]
    rfl
  refine ⟨?_, ?_, ?_, ?_⟩
  · rw [hconns, map_fst_updateConn]
    exact hkeys
  · rw [hgrps]
    exact nodup_groupDiscard _ _ _ hgroups
  · intro g ch' hm
    rw [hgrps] at hm
    obtain ⟨hmem, hne⟩ := (mem_groupDiscard _ _ _ _).mp hm
    obtain ⟨c1, hc1, hg, hst⟩ := hsound g ch' hmem
    have hch : ch' ≠ ch := by
      intro h
      subst h
      rw [hf] at hc1
      injection hc1 with h2
      subst h2
      exact hne (by rw [hg])
    refine ⟨c1, ?_, hg, hst⟩
    rw [hconns, findConn_updateConn_other _ _ _ _ hch, hc1]
  · intro ch' c1 hc1 hst
    rw [hconns] at hc1
    by_cases hch : ch' = ch
    · subst hch
      rw [findConn_updateConn_same, hf] at hc1
      simp only [Option.map_some', Option.some.injEq] at hc1
      subst hc1
      exact absurd rfl hst
    · rw [findConn_updateConn_other _ _ _ _ hch] at hc1
      rw [hgrps]
      exact (mem_groupDiscard _ _ _ _).mpr
        ⟨hcomp ch' c1 hc1 hst, by simp [Prod.ext_iff, hch]⟩

theorem receiveStep_ok_shape (ch : ChanName) (raw : Raw) (s s' : SysState)
    (h : receiveStep ch raw s = Except.ok s') : ∃ g m, s' = groupSend g m s := by
  cases raw with
  | malformed t => exact absurd h (by simp [receiveStep, loads])
  | wf j =>
      cases hm : getMessage j with
      | error e =>
          rw [receiveStep_wf_error ch j e s hm] at h
          exact absurd h (by simp)
      | ok m =>
          cases hf : findConn s.conns ch with
          | none =>
              have herr : receiveStep ch (Raw.wf j) s
                  = Except.error PyErr.attributeError := by
                simp only [receiveStep, loads, hm, hf]
              rw [herr] at h
              exact absurd h (by simp)
          | some c =>
              rw [receiveStep_wf ch j m s c hf hm] at h
              injection h with h2
              exact ⟨roomGroupName c.room, m, h2.symm⟩

theorem registryInv_step (s : SysState) (e : Ev) (hinv : RegistryInv s) :
    RegistryInv (step s e) := by
  cases e with
  | join ch r =>
      simp only [step]
      cases hf : findConn s.conns ch with
      | none => exact registryInv_connectJoin ch r s hf hinv
      | some c => exact hinv
  | acc ch =>
      simp only [step]
      cases hf : findConn s.conns ch with
      | none => exact hinv
      | some c =>
          by_cases hst : c.state = ConnState.connecting
          · dsimp only
            rw [if_pos hst]
            exact registryInv_acceptCall ch s c hf hst hinv
          · dsimp only
            rw [if_neg hst]
            exact hinv
  | recv ch raw =>
      simp only [step]
      cases hf : findConn s.conns ch with
      | none => exact hinv
      | some c =>
          by_cases hst : c.state = ConnState.opened
          · dsimp only
            rw [if_pos hst]
            cases hr : receiveStep ch raw s with
            | ok s' =>
                obtain ⟨g, m, rfl⟩ := receiveStep_ok_shape ch raw s s' hr
                exact registryInv_groupSend g m s hinv
            | error e => exact hinv
          · dsimp only
            rw [if_neg hst]
            exact hinv
  | disc ch =>
      simp only [step]
      cases hf : findConn s.conns ch with
      | none => exact hinv
      | some c =>
          by_cases hst : c.state = ConnState.closed
          · dsimp only
            rw [if_pos hst]
            exact hinv
          · dsimp only
            rw [if_neg hst]
            exact registryInv_disc ch s c hf hinv

theorem registryInv_init : RegistryInv initState := by
  refine ⟨List.nodup_nil, List.nodup_nil, ?_, ?_⟩
  · intro g ch hm
    exact absurd hm (List.not_mem_nil _)
  · intro ch c hc _
    exact Option.noConfusion hc

theorem registryInv_runFrom (evs : List Ev) :
    ∀ s, RegistryInv s → RegistryInv (runFrom s evs) := by
  induction evs with
  | nil => intro s h; exact h
  | cons e evs ih => intro s h; exact ih (step s e) (registryInv_step s e h)

theorem registryInv_run (evs : List Ev) : RegistryInv (run evs) :=
  registryInv_runFrom evs initState registryInv_init

/-! ### Equations for the trace step -/

theorem step_join_fresh (ch : ChanName) (r : String) (s : SysState)
    (hf : findConn s.conns ch = none) : step s (Ev.join ch r) = connectJoin ch r s := by
  simp only [step, hf]

theorem step_join_existing (ch : ChanName) (r : String) (s : SysState) (c : Conn)
    (hf : findConn s.conns ch = some c) : step s (Ev.join ch r) = s := by
  simp only [step, hf]

theorem step_acc_none (ch : ChanName) (s : SysState)
    (hf : findConn s.conns ch = none) : step s (Ev.acc ch) = s := by
  simp only [step, hf]

theorem step_acc_connecting (ch : ChanName) (s : SysState) (c : Conn)
    (hf : findConn s.conns ch = some c) (hst : c.state = ConnState.connecting) :
    step s (Ev.acc ch) = acceptCall ch s := by
  simp only [step, hf]
  rw [if_pos hst]

theorem step_acc_other (ch : ChanName) (s : SysState) (c : Conn)
    (hf : findConn s.conns ch = some c) (hst : c.state ≠ ConnState.connecting) :
    step s (Ev.acc ch) = s := by
  simp only [step, hf]
  rw [if_neg hst]

theorem step_recv_none (ch : ChanName) (raw : Raw) (s : SysState)
    (hf : findConn s.conns ch = none) : step s (Ev.recv ch raw) = s := by
  simp only [step, hf]

theorem step_recv_not_open (ch : ChanName) (raw : Raw) (s : SysState) (c : Conn)
    (hf : findConn s.conns ch = some c) (hst : c.state ≠ ConnState.opened) :
    step s (Ev.recv ch raw) = s := by
  simp only [step, hf]
  rw [if_neg hst]

theorem step_recv_ok (ch : ChanName) (raw : Raw) (s s' : SysState) (c : Conn)
    (hf : findConn s.conns ch = some c) (hst : c.state = ConnState.opened)
    (hr : receiveStep ch raw s = Except.ok s') : step s (Ev.recv ch raw) = s' := by
  simp only [step, hf]
  rw [if_pos hst, hr]

theorem step_recv_err (ch : ChanName) (raw : Raw) (s : SysState) (c : Conn)
    (e : PyErr) (hf : findConn s.conns ch = some c)
    (hst : c.state = ConnState.opened) (hr : receiveStep ch raw s = Except.error e) :
    step s (Ev.recv ch raw) = s := by
  simp only [step, hf]
  rw [if_pos hst, hr]

theorem step_disc_none (ch : ChanName) (s : SysState)
    (hf : findConn s.conns ch = none) : step s (Ev.disc ch) = s := by
  simp only [step, hf]

theorem step_disc_closed (ch : ChanName) (s : SysState) (c : Conn)
    (hf : findConn s.conns ch = some c) (hst : c.state = ConnState.closed) :
    step s (Ev.disc ch) = s := by
  simp only [step, hf]
  rw [if_pos hst]

theorem step_disc_live (ch : ChanName) (s : SysState) (c : Conn)
    (hf : findConn s.conns ch = some c) (hst : c.state ≠ ConnState.closed) :
    step s (Ev.disc ch) = setClosed ch (disconnectCall ch s) := by
  simp only [step, hf]
  rw [if_neg hst]

/-- C4: in every reachable state, room R's group holds exactly the channels
whose consumer joined R and has not yet been closed by the disconnect
cleanup — no duplicate entries and no entry for a Closed connection (the
transition to Closed always discards the membership). -/
theorem c4_membership_exact (evs : List Ev) (r : String) (ch : ChanName) :
    ((roomGroupName r, ch) ∈ (run evs).groups ↔
      ∃ c, findConn (run evs).conns ch = some c ∧ c.room = r ∧
        c.state ≠ ConnState.closed) ∧
    (run evs).groups.Nodup := by
  obtain ⟨hkeys, hgroups, hsound, hcomp⟩ := registryInv_run evs
  refine ⟨⟨?_, ?_⟩, hgroups⟩
  · intro hm
    obtain ⟨c, hc, hg, hst⟩ := hsound _ _ hm
    exact ⟨c, hc, (roomGroupName_inj _ _ hg).symm, hst⟩
  · rintro ⟨c, hc, hr, hst⟩
    have hmem := hcomp ch c hc hst
    rw [hr] at hmem
    exact hmem

/-- Witness for C4: after channel 0 joins the lobby and is accepted, the
lobby group contains it. -/
theorem c4_membership_exact_witness :
    (roomGroupName "lobby", 0) ∈ (run [Ev.join 0 "lobby", Ev.acc 0]).groups :=
  (c4_membership_exact [Ev.join 0 "lobby", Ev.acc 0] "lobby" 0).1.mpr
    ⟨{ room := "lobby", state := ConnState.opened, outbox := [] }, rfl, rfl,
      fun hx => ConnState.noConfusion hx⟩

/-- C10: `connect` adds the channel to the group before accepting: every
Open connection of a reachable state is already in its room's group, and
mid-connect there is a reachable state where the connection is a group
member while its handshake is still pending (Connecting). -/
theorem c10_member_before_open :
    (∀ evs ch c, findConn (run evs).conns ch = some c →
      c.state = ConnState.opened →
      (roomGroupName c.room, ch) ∈ (run evs).groups) ∧
    (∃ evs ch c, findConn (run evs).conns ch = some c ∧
      c.state = ConnState.connecting ∧
      (roomGroupName c.room, ch) ∈ (run evs).groups) := by
  constructor
  · intro evs ch c hc hst
    obtain ⟨hkeys, hgroups, hsound, hcomp⟩ := registryInv_run evs
    refine hcomp ch c hc ?_
    rw [hst]
    intro hx
    exact ConnState.noConfusion hx
  · refine ⟨[Ev.join 1 "side"], 1,
      { room := "side", state := ConnState.connecting, outbox := [] }, rfl, rfl, ?_⟩
    decide

/-- Witness for C10 at a concrete accepted connection. -/
theorem c10_member_before_open_witness :
    (roomGroupName "side", 1) ∈ (run [Ev.join 1 "side", Ev.acc 1]).groups :=
  c10_member_before_open.1 [Ev.join 1 "side", Ev.acc 1] 1
    { room := "side", state := ConnState.opened, outbox := [] } rfl rfl

/-! ### Outboxes only grow along a trace -/

theorem outboxOf_connectJoin_fresh (ch' ch : ChanName) (r : String) (s : SysState)
    (hf : findConn s.conns ch = none) :
    outboxOf (connectJoin ch r s) ch' = outboxOf s ch' := by
  have hconns : (connectJoin ch r s).conns
      = s.conns ++ [(ch, { room := r, state := ConnState.connecting, outbox := [] })] := by
    simp only [connectJoin, hf]
  unfold outboxOf
  rw [hconns]
  cases hcc : findConn s.conns ch' with
  | some c => rw [findConn_append_some _ _ _ _ hcc]
  | none =>
      rw [findConn_append_none _ _ _ hcc]
      by_cases hch : ch = ch'
      · subst hch
        simp [findConn]
      · simp [findConn, hch]

theorem outboxOf_acceptCall (ch ch' : ChanName) (s : SysState) :
    outboxOf (acceptCall ch s) ch' = outboxOf s ch' := by
  unfold outboxOf
  show (match findConn (updateConn s.conns ch _) ch' with
    | some c => c.outbox
    | none => []) = _
  by_cases hch : ch' = ch
  · subst hch
    rw [findConn_updateConn_same]
    cases hcc : findConn s.conns ch' with
    | none => rfl
    | some c => simp
  · rw [findConn_updateConn_other _ _ _ _ hch]

theorem outboxOf_setClosed (ch ch' : ChanName) (s : SysState) :
    outboxOf (setClosed ch s) ch' = outboxOf s ch' := by
  unfold outboxOf
  show (match findConn (updateConn s.conns ch _) ch' with
    | some c => c.outbox
    | none => []) = _
  by_cases hch : ch' = ch
  · subst hch
    rw [findConn_updateConn_same]
    cases hcc : findConn s.conns ch' with
    | none => rfl
    | some c => simp
  · rw [findConn_updateConn_other _ _ _ _ hch]

theorem outboxOf_disconnectCall (ch ch' : ChanName) (s : SysState) :
    outboxOf (disconnectCall ch s) ch' = outboxOf s ch' := by
  unfold disconnectCall
  cases hf : findConn s.conns ch with
  | none => rfl
  | some c => rfl

theorem outboxOf_groupSend_mono (g : String) (m : Json) (s : SysState)
    (ch : ChanName) : ∃ d, outboxOf (groupSend g m s) ch = outboxOf s ch ++ d := by
  cases hcc : findConn s.conns ch with
  | none =>
      refine ⟨[], ?_⟩
      rw [outboxOf_groupSend_no_conn _ _ _ _ hcc, List.append_nil]
  | some c =>
      by_cases hgm : (g, ch) ∈ s.groups
      · exact ⟨[wsOut m], outboxOf_groupSend_mem _ _ _ _ c hcc hgm⟩
      · refine ⟨[], ?_⟩
        rw [outboxOf_groupSend_not_mem _ _ _ _ hgm, List.append_nil]

theorem outboxOf_step_mono (s : SysState) (e : Ev) (ch : ChanName) :
    ∃ d, outboxOf (step s e) ch = outboxOf s ch ++ d := by
  cases e with
  | join ch0 r =>
      cases hf : findConn s.conns ch0 with
      | none =>
          refine ⟨[], ?_⟩
          rw [step_join_fresh ch0 r s hf, outboxOf_connectJoin_fresh ch ch0 r s hf,
            List.append_nil]
      | some c =>
          refine ⟨[], ?_⟩
          rw [step_join_existing ch0 r s c hf, List.append_nil]
  | acc ch0 =>
      cases hf : findConn s.conns ch0 with
      | none =>
          refine ⟨[], ?_⟩
          rw [step_acc_none ch0 s hf, List.append_nil]
      | some c =>
          by_cases hst : c.state = ConnState.connecting
          · refine ⟨[], ?_⟩
            rw [step_acc_connecting ch0 s c hf hst, outboxOf_acceptCall, List.append_nil]
          · refine ⟨[], ?_⟩
            rw [step_acc_other ch0 s c hf hst, List.append_nil]
  | recv ch0 raw =>
      cases hf : findConn s.conns ch0 with
      | none =>
          refine ⟨[], ?_⟩
          rw [step_recv_none ch0 raw s hf, List.append_nil]
      | some c =>
          by_cases hst : c.state = ConnState.opened
          · cases hr : receiveStep ch0 raw s with
            | ok s' =>
                obtain ⟨g, m, rfl⟩ := receiveStep_ok_shape ch0 raw s s' hr
                obtain ⟨d, hd⟩ := outboxOf_groupSend_mono g m s ch
                refine ⟨d, ?_⟩
                rw [step_recv_ok ch0 raw s _ c hf hst hr, hd]
            | error e =>
                refine ⟨[], ?_⟩
                rw [step_recv_err ch0 raw s c e hf hst hr, List.append_nil]
          · refine ⟨[], ?_⟩
            rw [step_recv_not_open ch0 raw s c hf hst, List.append_nil]
  | disc ch0 =>
      cases hf : findConn s.conns ch0 with
      | none =>
          refine ⟨[], ?_⟩
          rw [step_disc_none ch0 s hf, List.append_nil]
      | some c =>
          by_cases hst : c.state = ConnState.closed
          · refine ⟨[], ?_⟩
            rw [step_disc_closed ch0 s c hf hst, List.append_nil]
          · refine ⟨[], ?_⟩
            rw [step_disc_live ch0 s c hf hst, outboxOf_setClosed,
              outboxOf_disconnectCall, List.append_nil]

theorem outboxOf_runFrom_mono (evs : List Ev) :
    ∀ (s : SysState) (ch : ChanName),
      ∃ d, outboxOf (runFrom s evs) ch = outboxOf s ch ++ d := by
  induction evs with
  | nil =>
      intro s ch
      exact ⟨[], (List.append_nil _).symm⟩
  | cons e evs ih =>
      intro s ch
      obtain ⟨d1, h1⟩ := outboxOf_step_mono s e ch
      obtain ⟨d2, h2⟩ := ih (step s e) ch
      refine ⟨d1 ++ d2, ?_⟩
      show outboxOf (runFrom (step s e) evs) ch = _
      rw [h2, h1, List.append_assoc]

theorem findConn_step_isSome (s : SysState) (e : Ev) (ch : ChanName) (c : Conn)
    (hc : findConn s.conns ch = some c) :
    ∃ c', findConn (step s e).conns ch = some c' := by
  cases e with
  | join ch0 r =>
      cases hf : findConn s.conns ch0 with
      | none =>
          rw [step_join_fresh ch0 r s hf]
          have hconns : (connectJoin ch0 r s).conns = s.conns ++
              [(ch0, { room := r, state := ConnState.connecting, outbox := [] })] := by
            simp only [connectJoin, hf]
          rw [hconns]
          exact ⟨c, findConn_append_some _ _ _ _ hc⟩
      | some c0 =>
          rw [step_join_existing ch0 r s c0 hf]
          exact ⟨c, hc⟩
  | acc ch0 =>
      cases hf : findConn s.conns ch0 with
      | none =>
          rw [step_acc_none ch0 s hf]
          exact ⟨c, hc⟩
      | some c0 =>
          by_cases hst : c0.state = ConnState.connecting
          · rw [step_acc_connecting ch0 s c0 hf hst]
            show ∃ c', findConn (updateConn s.conns ch0 _) ch = some c'
            by_cases hch : ch = ch0
            · subst hch
              rw [findConn_updateConn_same, hc]
              exact ⟨_, rfl⟩
            · rw [findConn_updateConn_other _ _ _ _ hch]
              exact ⟨c, hc⟩
          · rw [step_acc_other ch0 s c0 hf hst]
            exact ⟨c, hc⟩
  | recv ch0 raw =>
      cases hf : findConn s.conns ch0 with
      | none =>
          rw [step_recv_none ch0 raw s hf]
          exact ⟨c, hc⟩
      | some c0 =>
          by_cases hst : c0.state = ConnState.opened
          · cases hr : receiveStep ch0 raw s with
            | ok s' =>
                obtain ⟨g, m, rfl⟩ := receiveStep_ok_shape ch0 raw s s' hr
                rw [step_recv_ok ch0 raw s _ c0 hf hst hr]
                rw [conns_groupSend, findConn_deliverAll, hc]
                exact ⟨_, rfl⟩
            | error e =>
                rw [step_recv_err ch0 raw s c0 e hf hst hr]
                exact ⟨c, hc⟩
          · rw [step_recv_not_open ch0 raw s c0 hf hst]
            exact ⟨c, hc⟩
  | disc ch0 =>
      cases hf : findConn s.conns ch0 with
      | none =>
          rw [step_disc_none ch0 s hf]
          exact ⟨c, hc⟩
      | some c0 =>
          by_cases hst : c0.state = ConnState.closed
          · rw [step_disc_closed ch0 s c0 hf hst]
            exact ⟨c, hc⟩
          · rw [step_disc_live ch0 s c0 hf hst]
            have hconns : (setClosed ch0 (disconnectCall ch0 s)).conns
                = updateConn s.conns ch0 (fun c => { c with state := ConnState.closed }) := by
              rw [disconnectCall_some ch0 s c0 hf]
              rfl
            rw [hconns]
            by_cases hch : ch = ch0
            · subst hch
              rw [findConn_updateConn_same, hc]
              exact ⟨_, rfl⟩
            · rw [findConn_updateConn_other _ _ _ _ hch]
              exact ⟨c, hc⟩

theorem findConn_runFrom_isSome (evs : List Ev) :
    ∀ (s : SysState) (ch : ChanName) (c : Conn),
      findConn s.conns ch = some c →
      ∃ c', findConn (runFrom s evs).conns ch = some c' := by
  induction evs with
  | nil =>
      intro s ch c hc
      exact ⟨c, hc⟩
  | cons e evs ih =>
      intro s ch c hc
      obtain ⟨c1, hc1⟩ := findConn_step_isSome s e ch c hc
      exact ih (step s e) ch c1 hc1

/-- C6: per-connection delivery order equals publish order within a room.
If a connection is in room group g when envelope m1 is published, and still
in g (after any intervening trace) when m2 is published, then m1's frame
sits at a strictly smaller index of its outbox than m2's frame. -/
theorem c6_publish_order (s : SysState) (g : String) (ch : ChanName) (c : Conn)
    (m1 m2 : Json) (evs : List Ev)
    (hc : findConn s.conns ch = some c)
    (h1 : (g, ch) ∈ s.groups)
    (h2 : (g, ch) ∈ (runFrom (groupSend g m1 s) evs).groups) :
    (outboxOf s ch).length < (outboxOf (runFrom (groupSend g m1 s) evs) ch).length ∧
    (outboxOf (groupSend g m2 (runFrom (groupSend g m1 s) evs)) ch).get?
        ((outboxOf s ch).length) = some (wsOut m1) ∧
    (outboxOf (groupSend g m2 (runFrom (groupSend g m1 s) evs)) ch).get?
        ((outboxOf (runFrom (groupSend g m1 s) evs) ch).length) = some (wsOut m2) := by
  have e1 : outboxOf (groupSend g m1 s) ch = outboxOf s ch ++ [wsOut m1] :=
    outboxOf_groupSend_mem g m1 s ch c hc h1
  have hc1 : ∃ c1, findConn (groupSend g m1 s).conns ch = some c1 := by
    rw [conns_groupSend, findConn_deliverAll, hc]
    exact ⟨_, rfl⟩
  obtain ⟨c1, hc1⟩ := hc1
  obtain ⟨d, hd⟩ := outboxOf_runFrom_mono evs (groupSend g m1 s) ch
  obtain ⟨c2, hc2⟩ := findConn_runFrom_isSome evs (groupSend g m1 s) ch c1 hc1
  have e2 : outboxOf (groupSend g m2 (runFrom (groupSend g m1 s) evs)) ch
      = outboxOf (runFrom (groupSend g m1 s) evs) ch ++ [wsOut m2] :=
    outboxOf_groupSend_mem g m2 _ ch c2 hc2 h2
  have hB : outboxOf (runFrom (groupSend g m1 s) evs) ch
      = (outboxOf s ch ++ [wsOut m1]) ++ d := by
    rw [hd, e1]
  refine ⟨?_, ?_, ?_⟩
  · rw [hB]
    simp only [List.length_append, List.length_cons, List.length_nil]
    omega
  · rw [e2, hB, List.append_assoc, List.append_assoc,
      List.get?_append_right (Nat.le_refl _)]
    simp
  · rw [e2, hB]
    exact List.get?_concat_length _ _

/-- Witness for C6: in the lobby, publishing one then two gives member 0
the frames at indices 0 and 1 in that order. -/
theorem c6_publish_order_witness :
    (outboxOf lobbyState 0).length
        < (outboxOf (runFrom (groupSend (roomGroupName "lobby") (Json.str "one")
            lobbyState) []) 0).length ∧
    (outboxOf (groupSend (roomGroupName "lobby") (Json.str "two")
        (runFrom (groupSend (roomGroupName "lobby") (Json.str "one") lobbyState) []))
          0).get? ((outboxOf lobbyState 0).length) = some (wsOut (Json.str "one")) ∧
    (outboxOf (groupSend (roomGroupName "lobby") (Json.str "two")
        (runFrom (groupSend (roomGroupName "lobby") (Json.str "one") lobbyState) []))
          0).get?
        ((outboxOf (runFrom (groupSend (roomGroupName "lobby") (Json.str "one")
            lobbyState) []) 0).length) = some (wsOut (Json.str "two")) :=
  c6_publish_order lobbyState (roomGroupName "lobby") 0 lobbyConn
    (Json.str "one") (Json.str "two") [] rfl (by decide) (by decide)

/-- C8: the routing pattern ws/chat/<str:room_name>/ only captures
non-empty room names (the str converter matches one or more non-slash
characters), so `connect` is never invoked with an empty room id: a
connection attempt carrying an empty room segment matches no route and
results in no joined, accepted connection; a matching path hands the
captured (non-empty) name to `connect`. -/
theorem c8_route_rejects_empty_room :
    (∀ p r, roomOf p = some r → r ≠ "") ∧
    (∀ ch s p r, roomOf p = some r → handleWs ch p s = connectCall ch r s) ∧
    (∀ ch s, handleWs ch "ws/chat//" s = s) ∧
    (∀ ch s, handleWs ch "ws/chat/" s = s) := by
  refine ⟨?_, ?_, ?_, ?_⟩
  · intro p r hr
    unfold roomOf at hr
    cases hs : stripPre "ws/chat/".data p.data with
    | none =>
        rw [hs] at hr
        exact Option.noConfusion hr
    | some rest =>
        rw [hs] at hr
        dsimp only at hr
        cases hl : rest.getLast? with
        | none =>
            rw [hl] at hr
            exact Option.noConfusion hr
        | some lc =>
            rw [hl] at hr
            dsimp only at hr
            by_cases hlc : lc = '/'
            · rw [if_pos hlc] at hr
              by_cases hok : strOk rest.dropLast = true
              · rw [if_pos hok] at hr
                injection hr with hr2
                subst hr2
                intro hempty
                have hnil : rest.dropLast = [] := congrArg String.data hempty
                rw [hnil] at hok
                simp [strOk] at hok
              · rw [if_neg hok] at hr
                exact Option.noConfusion hr
            · rw [if_neg hlc] at hr
              exact Option.noConfusion hr
  · intro ch s p r hr
    unfold handleWs
    rw [hr]
  · intro ch s
    rfl
  · intro ch s
    rfl

/-- Witness for C8: the lobby path captures the non-empty name lobby, and
the empty-segment path joins nothing. -/
theorem c8_route_rejects_empty_room_witness :
    "lobby" ≠ "" ∧ handleWs 0 "ws/chat//" soloState = soloState :=
  ⟨c8_route_rejects_empty_room.1 "ws/chat/lobby/" "lobby" rfl,
   c8_route_rejects_empty_room.2.2.1 0 soloState⟩
